import Mathlib

/-!
Shallow embedding of the daily-monitoring-app backend (models and routes)
and proofs about its access-control and entity-lifecycle logic.

Sources embedded:
  backend/src/models/User.js   (user schema, toJSON, fullProfile)
  backend/src/models/Team.js   (team schema, addMember, removeMember, pre-save hook)
  backend/src/models/Project.js (project schema, addMember, removeMember, pre-save hook)
  backend/src/models/Task.js   (task schema, progressPercentage, updateProgress, pre-save hook)
  backend/src/routes/auth.js, users.js, teams.js, projects.js, tasks.js
Identifiers and field names follow the JavaScript source where Lean allows.
Dates are modelled as integers (millisecond timestamps); JavaScript Date
comparison is order comparison on those integers.
-/

namespace DailyMonitoring

/-- Lowercase one ASCII character, as JavaScript toLowerCase on the ASCII
range used by emails and names here. -/
def lowerChar (c : Char) : Char :=
  if c.toNat ≥ 65 ∧ c.toNat ≤ 90 then Char.ofNat (c.toNat + 32) else c

/-- Charwise lowercase of a string (JavaScript toLowerCase). -/
def lowerStr (s : String) : String := String.mk (s.data.map lowerChar)

/-- ASCII whitespace test for trimming. -/
def isSpaceChar (c : Char) : Bool :=
  c == ' ' || c == '\t' || c == '\n' || c == '\r'

/-- Strip leading and trailing whitespace (JavaScript trim). -/
def trimStr (s : String) : String :=
  String.mk (((s.data.dropWhile isSpaceChar).reverse.dropWhile isSpaceChar).reverse)

abbrev UserId := Nat

/-- User roles, from the userSchema role enum. -/
inductive Role
  | admin
  | team_leader
  | member
deriving DecidableEq, Repr

/-- Member tag inside a team, from the teamSchema members.role enum. -/
inductive TeamMemberRole
  | team_leader
  | member
deriving DecidableEq, Repr

/-- Member tag inside a project, from the projectSchema assignedMembers.role enum. -/
inductive ProjectMemberRole
  | project_manager
  | developer
  | tester
  | designer
  | other
deriving DecidableEq, Repr

/-- Task status enum from taskSchema. -/
inductive TaskStatus
  | todo
  | in_progress
  | review
  | completed
  | cancelled
deriving DecidableEq, Repr

/-- Project status enum from projectSchema. -/
inductive ProjectStatus
  | planning
  | active
  | on_hold
  | completed
  | cancelled
deriving DecidableEq, Repr

/-- The profile subdocument of userSchema. -/
structure UserProfile where
  avatar : Option String
  phone : Option String
  department : Option String
  pos : Option String
  joinDate : Int
deriving DecidableEq, Repr

/-- A user record (userSchema). -/
structure User where
  id : UserId
  name : String
  email : String
  password : String
  role : Role
  isActive : Bool
  teams : List Nat
  profile : UserProfile
  lastLogin : Option Int
deriving DecidableEq, Repr

/-- The password-free record produced by userSchema.methods.toJSON, which
deletes the password field from the plain object and keeps the rest. -/
structure UserJSON where
  id : UserId
  name : String
  email : String
  role : Role
  isActive : Bool
  teams : List Nat
  profile : UserProfile
  lastLogin : Option Int
deriving DecidableEq, Repr

/-- userSchema.methods.toJSON: toObject with the password field deleted. -/
def User.toJSON (u : User) : UserJSON :=
  { id := u.id, name := u.name, email := u.email, role := u.role,
    isActive := u.isActive, teams := u.teams, profile := u.profile,
    lastLogin := u.lastLogin }

/-- The fullProfile virtual of userSchema: id, name, email, role, isActive,
profile and teams (no password). -/
structure FullProfile where
  id : UserId
  name : String
  email : String
  role : Role
  isActive : Bool
  profile : UserProfile
  teams : List Nat
deriving DecidableEq, Repr

/-- userSchema fullProfile virtual. -/
def User.fullProfile (u : User) : FullProfile :=
  { id := u.id, name := u.name, email := u.email, role := u.role,
    isActive := u.isActive, profile := u.profile, teams := u.teams }

/-- One entry of the team members array (teamSchema.members). -/
structure TeamMember where
  user : UserId
  role : TeamMemberRole
deriving DecidableEq, Repr

/-- A team record (teamSchema).  joinedAt timestamps are irrelevant to every
claim and are omitted from member entries. -/
structure Team where
  id : Nat
  name : String
  teamLeader : UserId
  members : List TeamMember
  isActive : Bool
deriving DecidableEq, Repr

/-- teamSchema.methods.isMember: some member entry has this user id. -/
def Team.isMember (t : Team) (userId : UserId) : Bool :=
  t.members.any (fun m => m.user == userId)

/-- teamSchema.methods.isTeamLeader. -/
def Team.isTeamLeader (t : Team) (userId : UserId) : Bool :=
  t.teamLeader == userId

/-- teamSchema.methods.addMember: push a new entry unless an entry with this
user id already exists. -/
def Team.addMember (t : Team) (userId : UserId) (role : TeamMemberRole) : Team :=
  if t.members.any (fun m => m.user == userId) then t
  else { t with members := t.members ++ [{ user := userId, role := role }] }

/-- teamSchema.methods.removeMember: filter out every entry with this user id. -/
def Team.removeMember (t : Team) (userId : UserId) : Team :=
  { t with members := t.members.filter (fun m => ¬ m.user == userId) }

/-- teamSchema pre-save middleware: if no member entry carries the leader id,
push the leader with role team_leader. -/
def teamPreSave (t : Team) : Team :=
  if t.members.any (fun m => m.user == t.teamLeader) then t
  else { t with members := t.members ++ [{ user := t.teamLeader, role := TeamMemberRole.team_leader }] }

/-- Saving a team: the only save middleware on teamSchema is the leader
insertion hook; team saves do not fail. -/
def teamSave (t : Team) : Team := teamPreSave t

/-- One entry of the project assignedMembers array. -/
structure ProjectMember where
  user : UserId
  role : ProjectMemberRole
deriving DecidableEq, Repr

/-- A project record (projectSchema). -/
structure Project where
  id : Nat
  name : String
  team : Nat
  projectManager : UserId
  assignedMembers : List ProjectMember
  status : ProjectStatus
  startDate : Int
  endDate : Int
  actualEndDate : Option Int
deriving DecidableEq, Repr

/-- projectSchema.methods.isProjectManager. -/
def Project.isProjectManager (p : Project) (userId : UserId) : Bool :=
  p.projectManager == userId

/-- projectSchema.methods.isAssignedMember. -/
def Project.isAssignedMember (p : Project) (userId : UserId) : Bool :=
  p.assignedMembers.any (fun m => m.user == userId)

/-- projectSchema.methods.addMember: push unless an entry for this user exists. -/
def Project.addMember (p : Project) (userId : UserId) (role : ProjectMemberRole) : Project :=
  if p.assignedMembers.any (fun m => m.user == userId) then p
  else { p with assignedMembers := p.assignedMembers ++ [{ user := userId, role := role }] }

/-- projectSchema.methods.removeMember. -/
def Project.removeMember (p : Project) (userId : UserId) : Project :=
  { p with assignedMembers := p.assignedMembers.filter (fun m => ¬ m.user == userId) }

/-- projectSchema pre-save middleware: reject the save when endDate is not
after startDate, otherwise keep the document as is. -/
def projectSave (p : Project) : Except String Project :=
  if p.endDate ≤ p.startDate then Except.error "End date must be after start date"
  else Except.ok p

/-- One dependency edge of a task (taskSchema.dependencies). -/
structure TaskDependency where
  task : Nat
  kind : Bool
deriving DecidableEq, Repr

/-- One progress update record (taskSchema.progressUpdates). -/
structure ProgressUpdate where
  user : UserId
  status : TaskStatus
  comment : Option String
  hoursWorked : Nat
  updatedAt : Int
deriving DecidableEq, Repr

/-- One comment record (taskSchema.comments). -/
structure TaskComment where
  user : UserId
  comment : String
  createdAt : Int
deriving DecidableEq, Repr

/-- A task record (taskSchema). -/
structure Task where
  id : Nat
  title : String
  project : Nat
  assignedTo : UserId
  assignedBy : UserId
  status : TaskStatus
  estimatedHours : Nat
  actualHours : Nat
  startDate : Int
  dueDate : Int
  completedDate : Option Int
  dependencies : List TaskDependency
  comments : List TaskComment
  progressUpdates : List ProgressUpdate
deriving DecidableEq, Repr

/-- The progressPercentage virtual of taskSchema: a fixed map from status. -/
def Task.progressPercentage (t : Task) : Nat :=
  match t.status with
  | TaskStatus.todo => 0
  | TaskStatus.in_progress => 25
  | TaskStatus.review => 75
  | TaskStatus.completed => 100
  | TaskStatus.cancelled => 0

/-- taskSchema.methods.updateProgress: push a progress entry, set the status,
add hoursWorked to actualHours, and stamp completedDate when the new status
is completed. -/
def Task.updateProgress (t : Task) (userId : UserId) (status : TaskStatus)
    (comment : Option String) (hoursWorked : Nat) (now : Int) : Task :=
  let t1 := { t with
    progressUpdates := t.progressUpdates ++
      [{ user := userId, status := status, comment := comment,
         hoursWorked := hoursWorked, updatedAt := now }],
    status := status,
    actualHours := t.actualHours + hoursWorked }
  if status = TaskStatus.completed then { t1 with completedDate := some now } else t1

/-- taskSchema.methods.addComment: append one comment entry. -/
def Task.addComment (t : Task) (userId : UserId) (comment : String) (now : Int) : Task :=
  { t with comments := t.comments ++ [{ user := userId, comment := comment, createdAt := now }] }

/-- taskSchema.methods.canModify: admin, assignee, or creator. -/
def Task.canModify (t : Task) (userId : UserId) (userRole : Role) : Bool :=
  if userRole = Role.admin then true
  else if t.assignedTo == userId then true
  else if t.assignedBy == userId then true
  else false

/-- taskSchema pre-save middleware: reject the save when dueDate is not after
startDate. -/
def taskSave (t : Task) : Except String Task :=
  if t.dueDate ≤ t.startDate then Except.error "Due date must be after start date"
  else Except.ok t

/-! ## Auth routes (routes/auth.js) -/

/-- POST /api/auth/register: reject a duplicate email; force the role to
admin when the user collection is empty, otherwise keep the requested role;
store the new user and stamp lastLogin.  Password hashing is a sealed
credential transform and is kept as the raw credential string here. -/
def registerRoute (users : List User) (newId : UserId)
    (name email password : String) (role : Role) (now : Int) :
    Except String (List User × User) :=
  if users.any (fun u => u.email == lowerStr email) then
    Except.error "User with this email already exists"
  else
    let userRole := if users.length = 0 then Role.admin else role
    let u : User :=
      { id := newId, name := trimStr name, email := lowerStr email,
        password := password, role := userRole, isActive := true, teams := [],
        profile := { avatar := none, phone := none, department := none,
                     pos := none, joinDate := now },
        lastLogin := some now }
    Except.ok (users ++ [u], u)

/-! ## User routes (routes/users.js) -/

/-- PUT /api/users/:id/demote: not-found, admin and already-member guards,
then a conflict when the target leads any active team, otherwise set the
role to member. -/
def demoteRoute (users : List User) (teams : List Team) (targetId : UserId) :
    Except String (List User) :=
  match users.find? (fun u => u.id == targetId) with
  | none => Except.error "User not found"
  | some u =>
    if u.role = Role.admin then Except.error "Cannot modify admin role"
    else if u.role = Role.member then Except.error "User is already a member"
    else
      let teamsLed := teams.filter (fun t => t.teamLeader == targetId && t.isActive)
      if teamsLed.length > 0 then
        Except.error "Cannot demote user who is leading active teams"
      else
        Except.ok (users.map (fun v =>
          if v.id == targetId then { v with role := Role.member } else v))

/-- The persisted user collection after a demote request together with the
error, if any: a failed request leaves the collection untouched. -/
def demotePersist (users : List User) (teams : List Team) (targetId : UserId) :
    List User × Option String :=
  match demoteRoute users teams targetId with
  | Except.ok users2 => (users2, none)
  | Except.error e => (users, some e)

/-! ## Team routes (routes/teams.js) -/

/-- Case-insensitive team-name collision against another team. -/
def dupTeamName (dbTeams : List Team) (tid : Nat) (n : String) : Bool :=
  dbTeams.any (fun t2 => lowerStr t2.name == lowerStr n && ¬ t2.id == tid)

/-- POST /api/teams: name-collision, leader-lookup and leader-role guards,
member resolution against the user collection, then the team is built with
the leader tag on the leader entry and saved. -/
def createTeamRoute (dbTeams : List Team) (dbUsers : List User) (newId : Nat)
    (name : String) (teamLeader : UserId) (memberIds : List UserId) :
    Except String Team :=
  if dbTeams.any (fun t => lowerStr t.name == name.toLower) then
    Except.error "Team with this name already exists"
  else match dbUsers.find? (fun u => u.id == teamLeader) with
  | none => Except.error "Team leader not found"
  | some leader =>
    if ¬ (leader.role == Role.admin || leader.role == Role.team_leader) then
      Except.error "User must be admin or team leader to lead a team"
    else
      let memberUsers := dbUsers.filter (fun u => memberIds.contains u.id && u.isActive)
      if 0 < memberIds.length ∧ ¬ memberUsers.length = memberIds.length then
        Except.error "One or more members not found or inactive"
      else
        Except.ok (teamSave
          { id := newId, name := trimStr name, teamLeader := teamLeader,
            members := memberIds.map (fun mid =>
              { user := mid,
                role := if mid == teamLeader then TeamMemberRole.team_leader
                        else TeamMemberRole.member }),
            isActive := true })

/-- Retag the first member entry carrying this user id, as the mutation of
the result of Array.prototype.find in the update-team handler. -/
def retagFirst (ms : List TeamMember) (uid : UserId) (r : TeamMemberRole) :
    List TeamMember :=
  match ms with
  | [] => []
  | m :: rest =>
    if m.user == uid then { m with role := r } :: rest
    else m :: retagFirst rest uid r

/-- The updatable fields of PUT /api/teams/:id that touch this model. -/
structure TeamUpdate where
  name : Option String
  teamLeader : Option UserId
  isActive : Option Bool
deriving DecidableEq, Repr

/-- The plain field assignments at the end of the update-team handler. -/
def finishTeamUpdate (t : Team) (upd : TeamUpdate) : Team :=
  { t with name := (upd.name.map trimStr).getD t.name,
           isActive := upd.isActive.getD t.isActive }

/-- PUT /api/teams/:id: name-collision guard; when a different leader is
requested, look it up, check its role, retag the old leader entry to member,
retag the new leader entry to team_leader or push it, and move the leader
reference; then apply the plain updates and save. -/
def updateTeamRoute (dbTeams : List Team) (dbUsers : List User) (t : Team)
    (upd : TeamUpdate) : Except String Team :=
  let nameClash : Bool :=
    match upd.name with
    | some n => (¬ n == t.name) && dupTeamName dbTeams t.id n
    | none => false
  if nameClash then Except.error "Team with this name already exists"
  else match upd.teamLeader with
  | some nl =>
    if nl == t.teamLeader then Except.ok (teamSave (finishTeamUpdate t upd))
    else match dbUsers.find? (fun u => u.id == nl) with
    | none => Except.error "New team leader not found"
    | some leader =>
      if ¬ (leader.role == Role.admin || leader.role == Role.team_leader) then
        Except.error "User must be admin or team leader to lead a team"
      else
        let ms1 := retagFirst t.members t.teamLeader TeamMemberRole.member
        let ms2 :=
          if ms1.any (fun m => m.user == nl) then
            retagFirst ms1 nl TeamMemberRole.team_leader
          else ms1 ++ [{ user := nl, role := TeamMemberRole.team_leader }]
        Except.ok (teamSave (finishTeamUpdate { t with teamLeader := nl, members := ms2 } upd))
  | none => Except.ok (teamSave (finishTeamUpdate t upd))

/-- Modelled from the spec: middleware/validation.js is not under src, so the
validated domain of the role field of the add-member body is taken from the
data model of the spec, which tags each team member team_leader or member. -/
def validAddMemberRole (_r : TeamMemberRole) : Bool := true

/-- POST /api/teams/:id/members: user lookup and active guard, the
already-a-member conflict, then the model addMember followed by a save. -/
def addTeamMemberRoute (t : Team) (dbUsers : List User) (userId : UserId)
    (role : TeamMemberRole) : Except String Team :=
  if ¬ validAddMemberRole role then Except.error "Validation failed"
  else match dbUsers.find? (fun u => u.id == userId) with
  | none => Except.error "User not found or inactive"
  | some u =>
    if ¬ u.isActive then Except.error "User not found or inactive"
    else if t.isMember userId then Except.error "User is already a team member"
    else Except.ok (teamSave (t.addMember userId role))

/-- DELETE /api/teams/:id/members/:userId: the leader-removal guard comes
first, then the not-a-member guard, then the model removeMember and a save. -/
def removeTeamMemberRoute (t : Team) (userId : UserId) : Except String Team :=
  if t.teamLeader == userId then
    Except.error "Cannot remove team leader. Assign a new leader first."
  else if ¬ t.isMember userId then Except.error "User is not a team member"
  else Except.ok (teamSave (t.removeMember userId))

/-! ## Project routes (routes/projects.js) -/

/-- POST /api/projects: per-team name collision, creation permission, manager
lookup and team membership, member team-membership, then construction with
default status planning and a save. -/
def createProjectRoute (dbProjects : List Project) (dbUsers : List User)
    (actor : User) (teamDoc : Team) (newId : Nat) (name : String)
    (projectManager : UserId) (assignedMembers : List ProjectMember)
    (status : Option ProjectStatus) (startDate endDate : Int) :
    Except String Project :=
  if dbProjects.any (fun p => lowerStr p.name == name.toLower && p.team == teamDoc.id) then
    Except.error "Project with this name already exists in the team"
  else if ¬ (actor.role == Role.admin) && ¬ teamDoc.isTeamLeader actor.id then
    Except.error "Only team leaders can create projects for their team"
  else match dbUsers.find? (fun u => u.id == projectManager) with
  | none => Except.error "Project manager not found"
  | some _ =>
    if ¬ teamDoc.isMember projectManager then
      Except.error "Project manager must be a team member"
    else if ¬ (assignedMembers.all (fun m => teamDoc.isMember m.user)) then
      Except.error "All assigned members must be team members"
    else
      projectSave
        { id := newId, name := trimStr name, team := teamDoc.id,
          projectManager := projectManager, assignedMembers := assignedMembers,
          status := status.getD ProjectStatus.planning,
          startDate := startDate, endDate := endDate, actualEndDate := none }

/-- The updatable fields of PUT /api/projects/:id that touch this model. -/
structure ProjectUpdate where
  name : Option String
  projectManager : Option UserId
  status : Option ProjectStatus
  startDate : Option Int
  endDate : Option Int
deriving DecidableEq, Repr

/-- The in-memory mutation of the update-project handler: stamp actualEndDate
on a transition into completed, then Object.assign of the update payload. -/
def applyProjectUpdate (p : Project) (upd : ProjectUpdate) (now : Int) : Project :=
  let actualEnd :=
    if upd.status = some ProjectStatus.completed ∧ p.status ≠ ProjectStatus.completed
    then some now else p.actualEndDate
  { p with
    name := (upd.name.map trimStr).getD p.name,
    projectManager := upd.projectManager.getD p.projectManager,
    status := upd.status.getD p.status,
    startDate := upd.startDate.getD p.startDate,
    endDate := upd.endDate.getD p.endDate,
    actualEndDate := actualEnd }

/-- PUT /api/projects/:id: per-team name collision on rename, new-manager
lookup and team membership, then the in-memory mutation and a save. -/
def updateProjectRoute (dbProjects : List Project) (dbUsers : List User)
    (teamDoc : Team) (p : Project) (upd : ProjectUpdate) (now : Int) :
    Except String Project :=
  let nameClash : Bool :=
    match upd.name with
    | some n => (¬ n == p.name) &&
        dbProjects.any (fun p2 => lowerStr p2.name == lowerStr n &&
          p2.team == p.team && ¬ p2.id == p.id)
    | none => false
  if nameClash then Except.error "Project with this name already exists in the team"
  else
    let managerProblem : Option String :=
      match upd.projectManager with
      | some nm =>
        if nm == p.projectManager then none
        else match dbUsers.find? (fun u => u.id == nm) with
          | none => some "New project manager not found"
          | some _ =>
            if ¬ teamDoc.isMember nm then some "New project manager must be a team member"
            else none
      | none => none
    match managerProblem with
    | some e => Except.error e
    | none => projectSave (applyProjectUpdate p upd now)

/-- The persisted project after an update request together with the error, if
any: a failed save leaves the persisted entity untouched. -/
def updateProjectPersist (dbProjects : List Project) (dbUsers : List User)
    (teamDoc : Team) (p : Project) (upd : ProjectUpdate) (now : Int) :
    Project × Option String :=
  match updateProjectRoute dbProjects dbUsers teamDoc p upd now with
  | Except.ok p2 => (p2, none)
  | Except.error e => (p, some e)

/-! ## Task routes (routes/tasks.js) -/

/-- POST /api/tasks: management permission over the owning project, assignee
lookup, active flag and project-participation guards, same-project dependency
resolution, then construction with default status todo and a save. -/
def createTaskRoute (dbTasks : List Task) (dbUsers : List User) (actor : User)
    (projectDoc : Project) (team : Team) (newId : Nat) (title : String)
    (assignedTo : UserId) (estimatedHours : Option Nat)
    (startDate dueDate : Int) (dependencies : List TaskDependency) :
    Except String Task :=
  let canManage := actor.role == Role.admin || projectDoc.isProjectManager actor.id ||
    team.isTeamLeader actor.id
  if ¬ canManage then Except.error "Project management access required to create tasks"
  else match dbUsers.find? (fun u => u.id == assignedTo) with
  | none => Except.error "Assigned user not found or inactive"
  | some assignedUser =>
    if ¬ assignedUser.isActive then Except.error "Assigned user not found or inactive"
    else if ¬ projectDoc.isAssignedMember assignedTo &&
            ¬ projectDoc.isProjectManager assignedTo then
      Except.error "User must be assigned to the project to receive tasks"
    else
      let dependencyTasks := dbTasks.filter (fun t =>
        dependencies.any (fun d => d.task == t.id) && t.project == projectDoc.id)
      if dependencies.length > 0 && ¬ dependencyTasks.length == dependencies.length then
        Except.error "Some dependency tasks not found or not in the same project"
      else
        taskSave
          { id := newId, title := trimStr title, project := projectDoc.id,
            assignedTo := assignedTo, assignedBy := actor.id,
            status := TaskStatus.todo, estimatedHours := estimatedHours.getD 0,
            actualHours := 0, startDate := startDate, dueDate := dueDate,
            completedDate := none, dependencies := dependencies,
            comments := [], progressUpdates := [] }

/-- The updatable fields of PUT /api/tasks/:id that touch this model. -/
structure TaskUpdate where
  title : Option String
  status : Option TaskStatus
  assignedTo : Option UserId
  startDate : Option Int
  dueDate : Option Int
deriving DecidableEq, Repr

/-- The in-memory mutation of the update-task handler: stamp completedDate on
a transition into completed, then Object.assign of the update payload. -/
def applyTaskUpdate (t : Task) (upd : TaskUpdate) (now : Int) : Task :=
  let completed :=
    if upd.status = some TaskStatus.completed ∧ t.status ≠ TaskStatus.completed
    then some now else t.completedDate
  { t with
    title := (upd.title.map trimStr).getD t.title,
    status := upd.status.getD t.status,
    assignedTo := upd.assignedTo.getD t.assignedTo,
    startDate := upd.startDate.getD t.startDate,
    dueDate := upd.dueDate.getD t.dueDate,
    completedDate := completed }

/-- PUT /api/tasks/:id: modification permission, reassignment validation of
the new assignee, then the in-memory mutation and a save. -/
def updateTaskRoute (dbUsers : List User) (actor : User) (projectDoc : Project)
    (team : Team) (t : Task) (upd : TaskUpdate) (now : Int) :
    Except String Task :=
  let canModify := t.canModify actor.id actor.role ||
    projectDoc.isProjectManager actor.id || team.isTeamLeader actor.id
  if ¬ canModify then Except.error "Access denied to modify this task"
  else
    let assigneeProblem : Option String :=
      match upd.assignedTo with
      | some na =>
        if na == t.assignedTo then none
        else match dbUsers.find? (fun u => u.id == na) with
          | none => some "New assigned user not found or inactive"
          | some nu =>
            if ¬ nu.isActive then some "New assigned user not found or inactive"
            else if ¬ projectDoc.isAssignedMember na && ¬ projectDoc.isProjectManager na then
              some "New assigned user must be part of the project"
            else none
      | none => none
    match assigneeProblem with
    | some e => Except.error e
    | none => taskSave (applyTaskUpdate t upd now)

/-- PUT /api/tasks/:id/progress: permission guard, then the model
updateProgress with hoursWorked defaulted to 0, and a save. -/
def updateProgressRoute (actor : User) (projectDoc : Project) (team : Team)
    (t : Task) (status : TaskStatus) (comment : Option String)
    (hoursWorked : Option Nat) (now : Int) : Except String Task :=
  let canUpdate := t.assignedTo == actor.id || t.canModify actor.id actor.role ||
    projectDoc.isProjectManager actor.id || team.isTeamLeader actor.id
  if ¬ canUpdate then Except.error "Access denied to update task progress"
  else taskSave (t.updateProgress actor.id status comment (hoursWorked.getD 0) now)

/-- The delete permission of DELETE /api/tasks/:id. -/
def canDeleteTask (actor : User) (t : Task) (p : Project) (team : Team) : Bool :=
  actor.role == Role.admin || t.assignedBy == actor.id ||
  p.isProjectManager actor.id || team.isTeamLeader actor.id

/-- DELETE /api/tasks/:id: not-found and permission guards, then the
dependency conflict: any stored task holding a dependency edge to this id
while its status is outside completed and cancelled blocks the deletion;
otherwise the task is removed from the collection. -/
def deleteTaskRoute (dbTasks : List Task) (actor : User) (p : Project)
    (team : Team) (taskId : Nat) : Except String (List Task) :=
  match dbTasks.find? (fun t => t.id == taskId) with
  | none => Except.error "Task not found"
  | some task =>
    if ¬ canDeleteTask actor task p team then
      Except.error "Access denied to delete this task"
    else
      let dependentTasks := dbTasks.filter (fun t =>
        t.dependencies.any (fun d => d.task == taskId) &&
        ¬ (t.status == TaskStatus.completed || t.status == TaskStatus.cancelled))
      if dependentTasks.length > 0 then
        Except.error "Cannot delete task with active dependencies"
      else Except.ok (dbTasks.filter (fun t => ¬ t.id == taskId))

/-! ## List visibility filters -/

/-- GET /api/teams: a non-admin query is restricted to teams whose member
array contains the requesting user. -/
def teamListVisible (actor : User) (t : Team) : Bool :=
  actor.role == Role.admin || t.members.any (fun m => m.user == actor.id)

/-- GET /api/projects: admin sees every project; a team_leader query is
restricted to the teams whose teamLeader field is the actor; any other role
is restricted to projects where the actor is an assigned member or the
manager. -/
def projectListVisible (actor : User) (dbTeams : List Team) (p : Project) : Bool :=
  if actor.role == Role.admin then true
  else if actor.role == Role.team_leader then
    (dbTeams.filter (fun t => t.teamLeader == actor.id)).any (fun t => t.id == p.team)
  else
    p.assignedMembers.any (fun m => m.user == actor.id) || p.projectManager == actor.id

/-- GET /api/tasks: admin sees every task; a team_leader query is restricted
to tasks of projects where the actor is the manager or an assigned member;
any other role is restricted to tasks assigned to the actor. -/
def taskListVisible (actor : User) (dbProjects : List Project) (tk : Task) : Bool :=
  if actor.role == Role.admin then true
  else if actor.role == Role.team_leader then
    (dbProjects.filter (fun p => p.projectManager == actor.id ||
      p.assignedMembers.any (fun m => m.user == actor.id))).any
      (fun p => p.id == tk.project)
  else tk.assignedTo == actor.id

/-- The visibility filter for projects as the spec states it: admin sees all;
a team_leader sees projects under teams or projects where they are leader or
manager or member; a member sees only projects directly assigned to them. -/
def specProjectVisible (actor : User) (dbTeams : List Team) (p : Project) : Bool :=
  if actor.role == Role.admin then true
  else if actor.role == Role.team_leader then
    dbTeams.any (fun t => t.id == p.team && t.teamLeader == actor.id) ||
    p.projectManager == actor.id ||
    p.assignedMembers.any (fun m => m.user == actor.id)
  else p.assignedMembers.any (fun m => m.user == actor.id)

/-- The visibility filter for tasks as the spec states it: admin sees all; a
team_leader sees tasks under teams or projects where they are leader or
manager or member; a member sees only tasks directly assigned to them. -/
def specTaskVisible (actor : User) (dbTeams : List Team)
    (dbProjects : List Project) (tk : Task) : Bool :=
  if actor.role == Role.admin then true
  else if actor.role == Role.team_leader then
    dbProjects.any (fun p => p.id == tk.project &&
      (dbTeams.any (fun t => t.id == p.team && t.teamLeader == actor.id) ||
       p.projectManager == actor.id ||
       p.assignedMembers.any (fun m => m.user == actor.id)))
  else tk.assignedTo == actor.id

/-! ## Concrete sample entities used by witnesses and counterexamples -/

/-- An empty profile subdocument. -/
def emptyProfile : UserProfile :=
  { avatar := none, phone := none, department := none, pos := none, joinDate := 0 }

/-- A sample admin user. -/
def aliceU : User :=
  { id := 1, name := "Alice", email := "alice@example.com", password := "h1",
    role := Role.admin, isActive := true, teams := [], profile := emptyProfile,
    lastLogin := none }

/-- A sample plain member. -/
def bobU : User :=
  { id := 2, name := "Bob", email := "bob@example.com", password := "h2",
    role := Role.member, isActive := true, teams := [], profile := emptyProfile,
    lastLogin := none }

/-- A sample team leader user. -/
def carolU : User :=
  { id := 3, name := "Carol", email := "carol@example.com", password := "h3",
    role := Role.team_leader, isActive := true, teams := [], profile := emptyProfile,
    lastLogin := none }

/-- A sample user collection. -/
def sampleUsers : List User := [aliceU, bobU, carolU]

/-- A sample team led by Carol containing only her leader entry. -/
def engTeam : Team :=
  { id := 10, name := "Eng", teamLeader := 3,
    members := [{ user := 3, role := TeamMemberRole.team_leader }],
    isActive := true }

/-- The Eng team with Bob added as a plain member. -/
def engTeamFull : Team :=
  { id := 10, name := "Eng", teamLeader := 3,
    members := [{ user := 3, role := TeamMemberRole.team_leader },
                { user := 2, role := TeamMemberRole.member }],
    isActive := true }

/-- A sample project of the Eng team managed by Carol with Bob assigned. -/
def launchProject : Project :=
  { id := 20, name := "Launch", team := 10, projectManager := 3,
    assignedMembers := [{ user := 2, role := ProjectMemberRole.developer }],
    status := ProjectStatus.active, startDate := 0, endDate := 100,
    actualEndDate := none }

/-- A sample task of the Launch project assigned to Bob with five actual
hours on the clock. -/
def sampleTask : Task :=
  { id := 30, title := "T1", project := 20, assignedTo := 2, assignedBy := 3,
    status := TaskStatus.in_progress, estimatedHours := 10, actualHours := 5,
    startDate := 0, dueDate := 50, completedDate := none, dependencies := [],
    comments := [], progressUpdates := [] }

/-- The user produced by the first sample registration. -/
def firstRegUser : User :=
  { id := 1, name := "Alice", email := "alice@x.com", password := "pw",
    role := Role.admin, isActive := true, teams := [],
    profile := { avatar := none, phone := none, department := none,
                 pos := none, joinDate := 5 },
    lastLogin := some 5 }

/-- The user produced by the second sample registration. -/
def secondRegUser : User :=
  { id := 2, name := "Bob", email := "bob@x.com", password := "pw",
    role := Role.member, isActive := true, teams := [],
    profile := { avatar := none, phone := none, department := none,
                 pos := none, joinDate := 6 },
    lastLogin := some 6 }

/-- A collection holding Carol as a team leader and Alice as an admin. -/
def demoUsers : List User := [aliceU, carolU]

/-- A task of the Launch project depending on the sample task. -/
def depTask : Task :=
  { id := 31, title := "T2", project := 20, assignedTo := 2, assignedBy := 3,
    status := TaskStatus.todo, estimatedHours := 4, actualHours := 0,
    startDate := 0, dueDate := 60, completedDate := none,
    dependencies := [{ task := 30, kind := true }],
    comments := [], progressUpdates := [] }

/-- The team visibility filter as it behaves: admin, or membership of the
team. -/
def amendedTeamVisible (actor : User) (t : Team) : Bool :=
  actor.role == Role.admin || t.isMember actor.id

/-- The project visibility filter as it behaves: admin sees all; a
team_leader sees exactly the projects of teams whose leader reference is the
actor; any other role sees the projects where the actor is an assigned
member or the manager. -/
def amendedProjectVisible (actor : User) (dbTeams : List Team) (p : Project) : Bool :=
  if actor.role == Role.admin then true
  else if actor.role == Role.team_leader then
    dbTeams.any (fun t => t.teamLeader == actor.id && t.id == p.team)
  else
    p.isAssignedMember actor.id || p.isProjectManager actor.id

/-- The task visibility filter as it behaves: admin sees all; a team_leader
sees exactly the tasks of projects where the actor is the manager or an
assigned member (teams they lead play no part); any other role sees the
tasks assigned to the actor. -/
def amendedTaskVisible (actor : User) (dbProjects : List Project) (tk : Task) : Bool :=
  if actor.role == Role.admin then true
  else if actor.role == Role.team_leader then
    dbProjects.any (fun p =>
      (p.projectManager == actor.id || p.assignedMembers.any (fun m => m.user == actor.id)) &&
      p.id == tk.project)
  else tk.assignedTo == actor.id

/-- A team led by Alice with Carol as a plain member. -/
def opsTeam : Team :=
  { id := 11, name := "Ops", teamLeader := 1,
    members := [{ user := 1, role := TeamMemberRole.team_leader },
                { user := 3, role := TeamMemberRole.member }],
    isActive := true }

/-- A project of the Ops team managed by Carol. -/
def opsProject : Project :=
  { id := 21, name := "Tooling", team := 11, projectManager := 3,
    assignedMembers := [], status := ProjectStatus.active,
    startDate := 0, endDate := 100, actualEndDate := none }

/-- A project of the Eng team managed by Alice with no assigned members. -/
def engProject2 : Project :=
  { id := 22, name := "Infra", team := 10, projectManager := 1,
    assignedMembers := [], status := ProjectStatus.active,
    startDate := 0, endDate := 100, actualEndDate := none }

/-- A task of the Infra project assigned to Bob. -/
def infraTask : Task :=
  { id := 32, title := "T3", project := 22, assignedTo := 2, assignedBy := 1,
    status := TaskStatus.todo, estimatedHours := 1, actualHours := 0,
    startDate := 0, dueDate := 10, completedDate := none, dependencies := [],
    comments := [], progressUpdates := [] }

/-! ## C1: the team leader tag invariant -/

/-- The number of member entries tagged team_leader. -/
def leaderTagCount (t : Team) : Nat :=
  t.members.countP (fun m => m.role == TeamMemberRole.team_leader)

/-- The invariant of the claim: the designated leader appears in the member
set tagged team_leader, and exactly one entry carries that tag. -/
def leaderInvariant (t : Team) : Prop :=
  (∃ m ∈ t.members, m.user = t.teamLeader ∧ m.role = TeamMemberRole.team_leader) ∧
  leaderTagCount t = 1

/-- The strengthened invariant actually preserved by the handlers: member
entries carry pairwise distinct user ids on top of the leader invariant. -/
def teamWF (t : Team) : Prop :=
  (t.members.map TeamMember.user).Nodup ∧ leaderInvariant t

instance (t : Team) : Decidable (leaderInvariant t) := by
  unfold leaderInvariant leaderTagCount
  exact inferInstance

instance (t : Team) : Decidable (teamWF t) := by
  unfold teamWF
  exact inferInstance

/-- The member entry built by createTeam for one requested id. -/
def builtMember (leader mid : UserId) : TeamMember :=
  { user := mid,
    role := if mid == leader then TeamMemberRole.team_leader
            else TeamMemberRole.member }

/-- The team document built by the create-team handler before its save. -/
def builtTeam (newId : Nat) (nm : String) (leader : UserId)
    (memberIds : List UserId) : Team :=
  { id := newId, name := nm, teamLeader := leader,
    members := memberIds.map (builtMember leader), isActive := true }

/-- The member list produced by the leader-reassignment branch of the
update-team handler. -/
def reassignMembers (t : Team) (nl : UserId) : List TeamMember :=
  let ms1 := retagFirst t.members t.teamLeader TeamMemberRole.member
  if ms1.any (fun m => m.user == nl) then retagFirst ms1 nl TeamMemberRole.team_leader
  else ms1 ++ [{ user := nl, role := TeamMemberRole.team_leader }]

/-- The Eng team after the add-member route adds Bob with role team_leader. -/
def engTeamTwoLeaders : Team :=
  { id := 10, name := "Eng", teamLeader := 3,
    members := [{ user := 3, role := TeamMemberRole.team_leader },
                { user := 2, role := TeamMemberRole.team_leader }],
    isActive := true }

/-- The Eng team after its leadership moves from Carol to Alice. -/
def reassignedTeam : Team :=
  { id := 10, name := "Eng", teamLeader := 1,
    members := [{ user := 3, role := TeamMemberRole.member },
                { user := 2, role := TeamMemberRole.member },
                { user := 1, role := TeamMemberRole.team_leader }],
    isActive := true }

/-! ## C10: password never leaves through user serialization -/

/-- C10: the serialization of a user record carries no password field: two
user records that differ only in the password hash serialize identically,
both through toJSON and through the fullProfile virtual used by the auth
responses. -/
theorem toJSON_ignores_password :
    ∀ (u : User) (p : String),
      User.toJSON { u with password := p } = User.toJSON u ∧
      User.fullProfile { u with password := p } = User.fullProfile u := by
  intro u p
  exact ⟨rfl, rfl⟩

/-! ## C9: model-level addMember is idempotent -/

/-- C9: for a team and a project, the model addMember leaves the member set
unchanged when the user already has an entry, and otherwise appends exactly
one entry for that user. -/
theorem addMember_idempotent :
    ∀ (t : Team) (p : Project) (uid : UserId)
      (tr : TeamMemberRole) (pr : ProjectMemberRole),
      (t.isMember uid = true → t.addMember uid tr = t) ∧
      (t.isMember uid = false →
        (t.addMember uid tr).members = t.members ++ [{ user := uid, role := tr }]) ∧
      (p.isAssignedMember uid = true → p.addMember uid pr = p) ∧
      (p.isAssignedMember uid = false →
        (p.addMember uid pr).assignedMembers =
          p.assignedMembers ++ [{ user := uid, role := pr }]) := by
  intro t p uid tr pr
  refine ⟨?_, ?_, ?_, ?_⟩
  · intro h; simp only [Team.addMember, Team.isMember] at *; simp [h]
  · intro h; simp only [Team.addMember, Team.isMember] at *; simp [h]
  · intro h; simp only [Project.addMember, Project.isAssignedMember] at *; simp [h]
  · intro h; simp only [Project.addMember, Project.isAssignedMember] at *; simp [h]

/-- Witness for C9 on the sample team and project: Carol is already a team
member so her addition is a no-op, Bob is not and his addition appends one
entry; Bob is already on the project so his addition is a no-op, Carol is
not and her addition appends one entry. -/
theorem addMember_idempotent_witness :
    (engTeam.addMember 3 TeamMemberRole.member = engTeam) ∧
    ((engTeam.addMember 2 TeamMemberRole.member).members =
      engTeam.members ++ [{ user := 2, role := TeamMemberRole.member }]) ∧
    (launchProject.addMember 2 ProjectMemberRole.tester = launchProject) ∧
    ((launchProject.addMember 3 ProjectMemberRole.developer).assignedMembers =
      launchProject.assignedMembers ++
        [{ user := 3, role := ProjectMemberRole.developer }]) := by
  refine ⟨?_, ?_, ?_, ?_⟩
  · exact (addMember_idempotent engTeam launchProject 3
      TeamMemberRole.member ProjectMemberRole.developer).1 (by decide)
  · exact (addMember_idempotent engTeam launchProject 2
      TeamMemberRole.member ProjectMemberRole.developer).2.1 (by decide)
  · exact (addMember_idempotent engTeam launchProject 2
      TeamMemberRole.member ProjectMemberRole.tester).2.2.1 (by decide)
  · exact (addMember_idempotent engTeam launchProject 3
      TeamMemberRole.member ProjectMemberRole.developer).2.2.2 (by decide)

/-! ## C4: recordProgress semantics -/

/-- C4: updateProgress appends exactly one progress entry, sets the status
to the given one, adds exactly hoursWorked to actualHours (so actualHours
never decreases), stamps completedDate with the call time when the given
status is completed, and the progress route returns exactly this update of
the stored task on success. -/
theorem updateProgress_spec :
    ∀ (t : Task) (uid : UserId) (st : TaskStatus) (c : Option String)
      (hw : Nat) (now : Int),
      ((t.updateProgress uid st c hw now).progressUpdates =
        t.progressUpdates ++
          [{ user := uid, status := st, comment := c, hoursWorked := hw,
             updatedAt := now }]) ∧
      ((t.updateProgress uid st c hw now).status = st) ∧
      ((t.updateProgress uid st c hw now).actualHours = t.actualHours + hw) ∧
      (t.actualHours ≤ (t.updateProgress uid st c hw now).actualHours) ∧
      (st = TaskStatus.completed →
        (t.updateProgress uid st c hw now).completedDate = some now) ∧
      (∀ (actor : User) (p : Project) (team : Team) (t2 : Task),
        updateProgressRoute actor p team t st c (some hw) now = Except.ok t2 →
        t2 = t.updateProgress actor.id st c hw now) := by
  intro t uid st c hw now
  refine ⟨?_, ?_, ?_, ?_, ?_, ?_⟩
  · simp only [Task.updateProgress]; split <;> rfl
  · simp only [Task.updateProgress]; split <;> rfl
  · simp only [Task.updateProgress]; split <;> rfl
  · simp only [Task.updateProgress]; split <;> simp
  · intro h; subst h; simp [Task.updateProgress]
  · intro actor p team t2 h
    simp only [updateProgressRoute] at h
    split at h
    · exact absurd h (by simp)
    · simp only [taskSave, Option.getD] at h
      split at h
      · exact absurd h (by simp)
      · exact (Except.ok.injEq _ _ ▸ h).symm ▸ rfl

/-- Witness for C4: recording progress with status completed and three hours
worked on the sample task with five actual hours yields eight actual hours,
a stamped completion date, and one appended progress entry. -/
theorem updateProgress_spec_witness :
    ((sampleTask.updateProgress 2 TaskStatus.completed none 3 40).actualHours = 5 + 3) ∧
    ((sampleTask.updateProgress 2 TaskStatus.completed none 3 40).completedDate = some 40) ∧
    ((sampleTask.updateProgress 2 TaskStatus.completed none 3 40).progressUpdates =
      sampleTask.progressUpdates ++
        [{ user := 2, status := TaskStatus.completed, comment := none,
           hoursWorked := 3, updatedAt := 40 }]) ∧
    (∀ t2, updateProgressRoute bobU launchProject engTeam sampleTask
        TaskStatus.completed none (some 3) 40 = Except.ok t2 →
      t2 = sampleTask.updateProgress 2 TaskStatus.completed none 3 40) := by
  refine ⟨?_, ?_, ?_, ?_⟩
  · exact (updateProgress_spec sampleTask 2 TaskStatus.completed none 3 40).2.2.1
  · exact (updateProgress_spec sampleTask 2 TaskStatus.completed none 3 40).2.2.2.2.1 rfl
  · exact (updateProgress_spec sampleTask 2 TaskStatus.completed none 3 40).1
  · intro t2 h
    exact (updateProgress_spec sampleTask 2 TaskStatus.completed none 3 40).2.2.2.2.2
      bobU launchProject engTeam t2 h

/-! ## C2: the first registered user is forced to admin -/

/-- C2: on an empty user collection register yields an admin regardless of
the requested role; on a nonempty collection register keeps the requested
role. -/
theorem register_spec :
    ∀ (users : List User) (newId : UserId) (nm em pw : String) (r : Role)
      (now : Int) (res : List User × User),
      registerRoute users newId nm em pw r now = Except.ok res →
      (users = [] → res.2.role = Role.admin) ∧
      (users ≠ [] → res.2.role = r) := by
  intro users newId nm em pw r now res h
  simp only [registerRoute] at h
  split at h
  · exact absurd h (by simp)
  · injection h with h2
    constructor
    · intro he
      subst he
      rw [← h2]
      simp
    · intro he
      rw [← h2]
      simp [List.length_eq_zero, he]

/-- Witness for C2: Alice registers first requesting role member and comes
out admin; Bob registers second requesting role member and stays member. -/
theorem register_spec_witness :
    registerRoute [] 1 "Alice" "alice@x.com" "pw" Role.member 5 =
      Except.ok ([firstRegUser], firstRegUser) ∧
    firstRegUser.role = Role.admin ∧
    registerRoute [firstRegUser] 2 "Bob" "bob@x.com" "pw" Role.member 6 =
      Except.ok ([firstRegUser, secondRegUser], secondRegUser) ∧
    secondRegUser.role = Role.member := by
  refine ⟨rfl, ?_, rfl, ?_⟩
  · exact (register_spec [] 1 "Alice" "alice@x.com" "pw" Role.member 5
      ([firstRegUser], firstRegUser) rfl).1 rfl
  · exact (register_spec [firstRegUser] 2 "Bob" "bob@x.com" "pw" Role.member 6
      ([firstRegUser, secondRegUser], secondRegUser) rfl).2 (by decide)

/-! ## C6: project end date is after the start date -/

/-- The project pre-save hook accepts a document exactly when the end date is
after the start date, and never rewrites the document. -/
theorem projectSave_ok (p q : Project) (h : projectSave p = Except.ok q) :
    q = p ∧ q.startDate < q.endDate := by
  simp only [projectSave] at h
  split at h
  · exact absurd h (by simp)
  · injection h with h2
    subst h2
    exact ⟨rfl, not_le.mp (by assumption)⟩

/-- C6: every successfully created or updated project has its end date after
its start date, and an update whose save is rejected leaves the persisted
project entity unchanged. -/
theorem project_date_range_spec :
    (∀ (dbProjects : List Project) (dbUsers : List User) (actor : User)
       (teamDoc : Team) (newId : Nat) (nm : String) (pm : UserId)
       (ams : List ProjectMember) (st : Option ProjectStatus) (sd ed : Int)
       (p2 : Project),
       createProjectRoute dbProjects dbUsers actor teamDoc newId nm pm ams st sd ed =
         Except.ok p2 →
       p2.startDate < p2.endDate) ∧
    (∀ (dbProjects : List Project) (dbUsers : List User) (teamDoc : Team)
       (p : Project) (upd : ProjectUpdate) (now : Int),
       ((updateProjectPersist dbProjects dbUsers teamDoc p upd now).2 = none →
         (updateProjectPersist dbProjects dbUsers teamDoc p upd now).1.startDate <
           (updateProjectPersist dbProjects dbUsers teamDoc p upd now).1.endDate) ∧
       ((updateProjectPersist dbProjects dbUsers teamDoc p upd now).2 ≠ none →
         (updateProjectPersist dbProjects dbUsers teamDoc p upd now).1 = p)) := by
  constructor
  · intro dbProjects dbUsers actor teamDoc newId nm pm ams st sd ed p2 h
    simp only [createProjectRoute] at h
    split at h
    · exact absurd h (by simp)
    · split at h
      · exact absurd h (by simp)
      · split at h
        · exact absurd h (by simp)
        · split at h
          · exact absurd h (by simp)
          · split at h
            · exact absurd h (by simp)
            · exact (projectSave_ok _ _ h).2
  · intro dbProjects dbUsers teamDoc p upd now
    simp only [updateProjectPersist]
    cases hr : updateProjectRoute dbProjects dbUsers teamDoc p upd now with
    | ok p2 =>
      refine ⟨fun _ => ?_, fun hc => absurd rfl hc⟩
      simp only [updateProjectRoute] at hr
      split at hr
      · exact absurd hr (by simp)
      · split at hr
        · exact absurd hr (by simp)
        · exact (projectSave_ok _ _ hr).2
    | error e => exact ⟨fun hc => absurd hc (by simp), fun _ => rfl⟩

/-- Witness for C6: creating the sample project with the dates in order
succeeds with the range invariant, and an update moving the end date before
the start date leaves the persisted entity unchanged. -/
theorem project_date_range_spec_witness :
    (createProjectRoute [] sampleUsers carolU engTeamFull 20 "Launch" 3
        [{ user := 2, role := ProjectMemberRole.developer }]
        (some ProjectStatus.active) 0 100 = Except.ok launchProject) ∧
    launchProject.startDate < launchProject.endDate ∧
    (updateProjectPersist [] sampleUsers engTeamFull launchProject
        { name := none, projectManager := none, status := none,
          startDate := none, endDate := some (-5) } 7).1 = launchProject := by
  refine ⟨rfl, ?_, ?_⟩
  · exact (project_date_range_spec.1 [] sampleUsers carolU engTeamFull 20 "Launch" 3
      [{ user := 2, role := ProjectMemberRole.developer }]
      (some ProjectStatus.active) 0 100 launchProject rfl)
  · exact (project_date_range_spec.2 [] sampleUsers engTeamFull launchProject
      { name := none, projectManager := none, status := none,
        startDate := none, endDate := some (-5) } 7).2 (by decide)

/-! ## C7: task date and completion invariants -/

/-- The task pre-save hook accepts a document exactly when the due date is
after the start date, and never rewrites the document. -/
theorem taskSave_ok (t q : Task) (h : taskSave t = Except.ok q) :
    q = t ∧ q.startDate < q.dueDate := by
  simp only [taskSave] at h
  split at h
  · exact absurd h (by simp)
  · injection h with h2
    subst h2
    exact ⟨rfl, not_le.mp (by assumption)⟩

/-- C7: every successfully saved task (created, updated, or progressed) has
its due date after its start date; the completed status always comes with a
stamped completedDate; and the progress-percentage map sends todo to 0,
in_progress to 25, review to 75, completed to 100 and cancelled to 0. -/
theorem task_invariant_spec :
    (∀ (dbTasks : List Task) (dbUsers : List User) (actor : User)
       (projectDoc : Project) (team : Team) (newId : Nat) (title : String)
       (assignedTo : UserId) (eh : Option Nat) (sd dd : Int)
       (deps : List TaskDependency) (t2 : Task),
       createTaskRoute dbTasks dbUsers actor projectDoc team newId title
           assignedTo eh sd dd deps = Except.ok t2 →
       t2.startDate < t2.dueDate ∧
       (t2.status = TaskStatus.completed → t2.completedDate.isSome = true)) ∧
    (∀ (dbUsers : List User) (actor : User) (projectDoc : Project)
       (team : Team) (t : Task) (upd : TaskUpdate) (now : Int) (t2 : Task),
       (t.status = TaskStatus.completed → t.completedDate.isSome = true) →
       updateTaskRoute dbUsers actor projectDoc team t upd now = Except.ok t2 →
       t2.startDate < t2.dueDate ∧
       (t2.status = TaskStatus.completed → t2.completedDate.isSome = true)) ∧
    (∀ (actor : User) (projectDoc : Project) (team : Team) (t : Task)
       (st : TaskStatus) (c : Option String) (hw : Option Nat) (now : Int)
       (t2 : Task),
       updateProgressRoute actor projectDoc team t st c hw now = Except.ok t2 →
       t2.startDate < t2.dueDate ∧
       (t2.status = TaskStatus.completed → t2.completedDate.isSome = true)) ∧
    (∀ t : Task,
       (t.status = TaskStatus.todo → t.progressPercentage = 0) ∧
       (t.status = TaskStatus.in_progress → t.progressPercentage = 25) ∧
       (t.status = TaskStatus.review → t.progressPercentage = 75) ∧
       (t.status = TaskStatus.completed → t.progressPercentage = 100) ∧
       (t.status = TaskStatus.cancelled → t.progressPercentage = 0)) := by
  refine ⟨?_, ?_, ?_, ?_⟩
  · intro dbTasks dbUsers actor projectDoc team newId title assignedTo eh sd dd deps t2 h
    simp only [createTaskRoute] at h
    split at h
    · exact absurd h (by simp)
    · split at h
      · exact absurd h (by simp)
      · split at h
        · exact absurd h (by simp)
        · split at h
          · exact absurd h (by simp)
          · split at h
            · exact absurd h (by simp)
            · obtain ⟨h2, h3⟩ := taskSave_ok _ _ h
              subst h2
              exact ⟨h3, fun hc => by simp at hc⟩
  · intro dbUsers actor projectDoc team t upd now t2 hpre h
    simp only [updateTaskRoute] at h
    split at h
    · exact absurd h (by simp)
    · split at h
      · exact absurd h (by simp)
      · obtain ⟨h2, h3⟩ := taskSave_ok _ _ h
        subst h2
        refine ⟨h3, ?_⟩
        intro hc
        simp only [applyTaskUpdate] at hc ⊢
        rcases hs : upd.status with _ | st2
        · rw [hs] at hc
          simp only [Option.getD_none] at hc
          simp [hs, hc, hpre hc]
        · rw [hs] at hc
          simp only [Option.getD_some] at hc
          subst hc
          by_cases ht : t.status = TaskStatus.completed
          · simp [hs, ht, hpre ht]
          · simp [hs, ht]
  · intro actor projectDoc team t st c hw now t2 h
    simp only [updateProgressRoute] at h
    split at h
    · exact absurd h (by simp)
    · obtain ⟨h2, h3⟩ := taskSave_ok _ _ h
      subst h2
      refine ⟨h3, ?_⟩
      intro hc
      simp only [Task.updateProgress] at hc ⊢
      split at hc
      · simp_all [Task.updateProgress]
      · simp_all
  · intro t
    refine ⟨?_, ?_, ?_, ?_, ?_⟩ <;>
      { intro h; simp [Task.progressPercentage, h] }

/-- Witness for C7: creating a task with due after start succeeds; updating
the sample task to completed stamps a completion date; recording completed
progress stamps one as well; and the mapping values on the sample task. -/
theorem task_invariant_spec_witness :
    (∀ t2, createTaskRoute [] sampleUsers carolU launchProject engTeam 31 "T2"
        2 none 0 9 [] = Except.ok t2 →
      t2.startDate < t2.dueDate) ∧
    (∀ t2, updateTaskRoute sampleUsers carolU launchProject engTeam sampleTask
        { title := none, status := some TaskStatus.completed, assignedTo := none,
          startDate := none, dueDate := none } 8 = Except.ok t2 →
      t2.status = TaskStatus.completed → t2.completedDate.isSome = true) ∧
    (∀ t2, updateProgressRoute bobU launchProject engTeam sampleTask
        TaskStatus.completed none (some 3) 40 = Except.ok t2 →
      t2.status = TaskStatus.completed → t2.completedDate.isSome = true) ∧
    sampleTask.progressPercentage = 25 := by
  refine ⟨?_, ?_, ?_, by decide⟩
  · intro t2 h
    exact (task_invariant_spec.1 [] sampleUsers carolU launchProject engTeam 31
      "T2" 2 none 0 9 [] t2 h).1
  · intro t2 h
    exact (task_invariant_spec.2.1 sampleUsers carolU launchProject engTeam
      sampleTask _ 8 t2 (by decide) h).2
  · intro t2 h
    exact (task_invariant_spec.2.2.1 bobU launchProject engTeam sampleTask
      TaskStatus.completed none (some 3) 40 t2 h).2

/-! ## C5: demote is blocked for leaders of active teams and for admins -/

/-- C5: demoting a team_leader who leads at least one active team fails and
leaves the user collection untouched; demoting a team_leader who leads no
active team succeeds and sets the role to member; demoting an admin is
blocked. -/
theorem demote_spec :
    ∀ (users : List User) (teams : List Team) (tid : UserId) (u : User),
      users.find? (fun v => v.id == tid) = some u →
      ((u.role = Role.team_leader →
          0 < (teams.filter (fun t => t.teamLeader == tid && t.isActive)).length →
          demotePersist users teams tid =
            (users, some "Cannot demote user who is leading active teams")) ∧
       (u.role = Role.team_leader →
          teams.filter (fun t => t.teamLeader == tid && t.isActive) = [] →
          demoteRoute users teams tid =
            Except.ok (users.map (fun v =>
              if v.id == tid then { v with role := Role.member } else v)) ∧
          ∀ v ∈ users.map (fun v =>
              if v.id == tid then { v with role := Role.member } else v),
            v.id = tid → v.role = Role.member) ∧
       (u.role = Role.admin →
          demotePersist users teams tid = (users, some "Cannot modify admin role"))) := by
  intro users teams tid u hfind
  refine ⟨?_, ?_, ?_⟩
  · intro hrole hlen
    simp only [demotePersist, demoteRoute, hfind, hrole]
    rw [if_neg (by simp), if_neg (by simp), if_pos hlen]
  · intro hrole hnil
    simp only [demoteRoute, hfind, hrole]
    rw [if_neg (by simp), if_neg (by simp), if_neg (by simp [hnil])]
    refine ⟨rfl, ?_⟩
    intro v hv hvid
    obtain ⟨w, hw, hwv⟩ := List.mem_map.mp hv
    by_cases hwid : w.id = tid
    · rw [← hwv, if_pos (by simp [hwid])]
    · rw [← hwv, if_neg (by simp [hwid])] at hvid ⊢
      exact absurd hvid hwid
  · intro hrole
    simp only [demotePersist, demoteRoute, hfind, hrole]
    simp

/-- Witness for C5: with the active Eng team led by Carol her demotion is
rejected and the collection is unchanged; with no team led by her the
demotion succeeds and her role becomes member; demoting the admin Alice is
blocked. -/
theorem demote_spec_witness :
    demotePersist demoUsers [engTeam] 3 =
      (demoUsers, some "Cannot demote user who is leading active teams") ∧
    demoteRoute demoUsers [] 3 =
      Except.ok [aliceU, { carolU with role := Role.member }] ∧
    demotePersist demoUsers [engTeam] 1 =
      (demoUsers, some "Cannot modify admin role") := by
  refine ⟨?_, ?_, ?_⟩
  · exact (demote_spec demoUsers [engTeam] 3 carolU (by decide)).1 (by decide) (by decide)
  · have h := ((demote_spec demoUsers [] 3 carolU (by decide)).2.1 (by decide) (by decide)).1
    rw [h]
    rfl
  · exact (demote_spec demoUsers [engTeam] 1 aliceU (by decide)).2.2 (by decide)

/-! ## C3: task deletion is guarded by incoming active dependency edges -/

/-- C3: in a store with distinct task ids where the target holds no edge to
itself, deleting a task fails with the dependency conflict whenever some
other task holds a dependency edge to it while that task is neither
completed nor cancelled, and succeeds (removing exactly the target) once
every such dependent task is completed or cancelled. -/
theorem deleteTask_dependency_spec :
    ∀ (dbTasks : List Task) (actor : User) (p : Project) (team : Team)
      (tid : Nat) (target : Task),
      (dbTasks.map Task.id).Nodup →
      dbTasks.find? (fun t => t.id == tid) = some target →
      canDeleteTask actor target p team = true →
      target.dependencies.any (fun d => d.task == tid) = false →
      ((∃ t ∈ dbTasks, ¬ t.id = tid ∧
          t.dependencies.any (fun d => d.task == tid) = true ∧
          ¬ t.status = TaskStatus.completed ∧ ¬ t.status = TaskStatus.cancelled) →
        deleteTaskRoute dbTasks actor p team tid =
          Except.error "Cannot delete task with active dependencies") ∧
      ((∀ t ∈ dbTasks, ¬ t.id = tid →
          t.dependencies.any (fun d => d.task == tid) = true →
          t.status = TaskStatus.completed ∨ t.status = TaskStatus.cancelled) →
        deleteTaskRoute dbTasks actor p team tid =
          Except.ok (dbTasks.filter (fun t => ¬ t.id == tid))) := by
  intro dbTasks actor p team tid target hnodup hfind hcan hself
  have htmem : target ∈ dbTasks := List.mem_of_find?_eq_some hfind
  have htid : target.id = tid := by
    have := List.find?_some hfind
    simpa using this
  constructor
  · intro hdep
    obtain ⟨t, htm, htne, hta, htc1, htc2⟩ := hdep
    simp only [deleteTaskRoute, hfind, hcan]
    rw [if_neg (by simp)]
    have hpred : (t.dependencies.any (fun d => d.task == tid) &&
        decide (¬ (t.status == TaskStatus.completed ||
                   t.status == TaskStatus.cancelled) = true)) = true := by
      simp [hta, htc1, htc2]
    have hmemf : t ∈ dbTasks.filter (fun t =>
        t.dependencies.any (fun d => d.task == tid) &&
        decide (¬ (t.status == TaskStatus.completed ||
                   t.status == TaskStatus.cancelled) = true)) :=
      List.mem_filter.mpr ⟨htm, hpred⟩
    rw [if_pos (List.length_pos.mpr (List.ne_nil_of_mem hmemf))]
  · intro hall
    simp only [deleteTaskRoute, hfind, hcan]
    rw [if_neg (by simp)]
    have hnil : dbTasks.filter (fun t =>
        t.dependencies.any (fun d => d.task == tid) &&
        decide (¬ (t.status == TaskStatus.completed ||
                   t.status == TaskStatus.cancelled) = true)) = [] := by
      rw [List.filter_eq_nil_iff]
      intro a ham hpa
      rw [Bool.and_eq_true] at hpa
      have hadep : a.dependencies.any (fun d => d.task == tid) = true := hpa.1
      have hastat : ¬ (a.status = TaskStatus.completed ∨ a.status = TaskStatus.cancelled) := by
        have h2 := hpa.2
        simp at h2
        tauto
      by_cases haid : a.id = tid
      · have : a = target :=
          List.inj_on_of_nodup_map hnodup ham htmem (by rw [haid, htid])
        rw [this] at hadep
        exact absurd hadep (by simp [hself])
      · exact hastat (hall a ham haid hadep)
    rw [hnil, if_neg (by decide)]

/-- Witness for C3, the round trip of the spec: while the dependent task is
todo the deletion of its dependency fails with the conflict; once the
dependent task is completed the deletion succeeds and removes the target. -/
theorem deleteTask_dependency_spec_witness :
    deleteTaskRoute [sampleTask, depTask] aliceU launchProject engTeam 30 =
      Except.error "Cannot delete task with active dependencies" ∧
    deleteTaskRoute [sampleTask, { depTask with status := TaskStatus.completed }]
        aliceU launchProject engTeam 30 =
      Except.ok [{ depTask with status := TaskStatus.completed }] := by
  constructor
  · exact (deleteTask_dependency_spec [sampleTask, depTask] aliceU launchProject
      engTeam 30 sampleTask (by decide) (by decide) (by decide) (by decide)).1
      ⟨depTask, by decide, by decide, by decide, by decide, by decide⟩
  · have h := (deleteTask_dependency_spec
      [sampleTask, { depTask with status := TaskStatus.completed }] aliceU
      launchProject engTeam 30 sampleTask (by decide) (by decide) (by decide)
      (by decide)).2 (by decide)
    rw [h]
    rfl

/-! ## C8: list visibility filters -/

/-- Pushing a filter inside an any-query. -/
theorem any_filter_eq {α : Type} (l : List α) (q r : α → Bool) :
    (l.filter q).any r = l.any (fun x => q x && r x) := by
  induction l with
  | nil => rfl
  | cons a l ih =>
    by_cases h : q a = true
    · simp [List.filter_cons, h, ih]
    · simp only [Bool.not_eq_true] at h
      simp [List.filter_cons, h, ih]

/-- Counterexample to C8: Carol is a team_leader who manages the Tooling
project inside a team led by Alice, so the spec filter shows it to her while
the implemented project filter hides it; and the Infra task lives in a
project of a team that Carol leads while she is neither its manager nor a
member, so the spec filter shows it while the implemented task filter hides
it. -/
theorem visibility_filter_counterexample :
    specProjectVisible carolU [opsTeam] opsProject = true ∧
    projectListVisible carolU [opsTeam] opsProject = false ∧
    specTaskVisible carolU [engTeam] [engProject2] infraTask = true ∧
    taskListVisible carolU [engProject2] infraTask = false := by
  decide

/-- C8 amended: the list filters narrow by role as follows.  Admin sees all
entities.  Teams: any non-admin sees exactly the teams whose member set
contains them.  Projects: a team_leader sees exactly the projects of the
teams whose leader reference is them (projects they merely manage or belong
to in other teams are not included); a member sees the projects where they
are an assigned member or the manager.  Tasks: a team_leader sees exactly
the tasks of projects where they are the manager or an assigned member
(teams they lead play no part); a member sees the tasks assigned to them. -/
theorem visibility_filter_amended :
    ∀ (actor : User) (t : Team) (dbTeams : List Team) (p : Project)
      (dbProjects : List Project) (tk : Task),
      teamListVisible actor t = amendedTeamVisible actor t ∧
      projectListVisible actor dbTeams p = amendedProjectVisible actor dbTeams p ∧
      taskListVisible actor dbProjects tk = amendedTaskVisible actor dbProjects tk := by
  intro actor t dbTeams p dbProjects tk
  refine ⟨rfl, ?_, ?_⟩
  · simp only [projectListVisible, amendedProjectVisible, any_filter_eq,
      Project.isAssignedMember, Project.isProjectManager]
  · simp only [taskListVisible, amendedTaskVisible, any_filter_eq,
      Project.isAssignedMember, Project.isProjectManager]

/-- Two distinct listed elements both satisfying a predicate push its count
to at least two. -/
theorem two_le_countP {α : Type} (p : α → Bool) (a b : α) (hab : a ≠ b)
    (hpa : p a = true) (hpb : p b = true) :
    ∀ l : List α, a ∈ l → b ∈ l → 2 ≤ l.countP p := by
  intro l
  induction l with
  | nil => intro ha _; cases ha
  | cons c l ih =>
    intro ha hb
    rw [List.countP_cons]
    rcases List.mem_cons.mp ha with ha1 | ha2
    · rcases List.mem_cons.mp hb with hb1 | hb2
      · exact absurd (ha1.trans hb1.symm) hab
      · have hc : p c = true := ha1 ▸ hpa
        have h1 : 0 < l.countP p := List.countP_pos.mpr ⟨b, hb2, hpb⟩
        rw [if_pos hc]
        omega
    · rcases List.mem_cons.mp hb with hb1 | hb2
      · have hc : p c = true := hb1 ▸ hpb
        have h1 : 0 < l.countP p := List.countP_pos.mpr ⟨a, ha2, hpa⟩
        rw [if_pos hc]
        omega
      · have h2 := ih ha2 hb2
        split <;> omega

/-- Under the leader invariant, every entry tagged team_leader carries the
leader id. -/
theorem tagged_is_leader (t : Team) (h : leaderInvariant t) :
    ∀ m ∈ t.members, m.role = TeamMemberRole.team_leader → m.user = t.teamLeader := by
  obtain ⟨⟨e, he, heu, her⟩, hcount⟩ := h
  intro m hm hr
  by_cases hme : m = e
  · rw [hme, heu]
  · have h2 := two_le_countP (fun m => m.role == TeamMemberRole.team_leader)
      m e hme (by simp [hr]) (by simp [her]) t.members hm he
    simp only [leaderTagCount] at hcount
    omega

/-- The pre-save hook is the identity as soon as the leader already has a
member entry. -/
theorem preSave_of_present (t : Team)
    (h : ∃ m ∈ t.members, m.user = t.teamLeader) : teamPreSave t = t := by
  obtain ⟨m, hm, hu⟩ := h
  simp only [teamPreSave]
  rw [if_pos (List.any_eq_true.mpr ⟨m, hm, by simp [hu]⟩)]

/-- Retagging an entry never changes the user ids of the member list. -/
theorem retagFirst_map_user (ms : List TeamMember) (uid : UserId) (r : TeamMemberRole) :
    (retagFirst ms uid r).map TeamMember.user = ms.map TeamMember.user := by
  induction ms with
  | nil => rfl
  | cons m rest ih =>
    simp only [retagFirst]
    split
    · simp
    · simp [ih]

/-- Retagging the unique entry of the only tagged user to member clears the
tag count, given distinct user ids. -/
theorem retag_to_member_count (ms : List TeamMember) (L : UserId)
    (hn : (ms.map TeamMember.user).Nodup)
    (hF : ∀ m ∈ ms, m.role = TeamMemberRole.team_leader → m.user = L) :
    (retagFirst ms L TeamMemberRole.member).countP
      (fun m => m.role == TeamMemberRole.team_leader) = 0 := by
  induction ms with
  | nil => rfl
  | cons m rest ih =>
    simp only [List.map_cons, List.nodup_cons] at hn
    simp only [retagFirst]
    split
    · rename_i hcond
      rw [List.countP_cons]
      have hrest : rest.countP (fun m => m.role == TeamMemberRole.team_leader) = 0 := by
        rw [List.countP_eq_zero]
        intro x hx hpx
        have hxu : x.user = L := hF x (List.mem_cons_of_mem _ hx) (by simpa using hpx)
        have hmu : m.user = L := by simpa using hcond
        have hmmem : m.user ∈ List.map TeamMember.user rest := by
          rw [hmu, ← hxu]
          exact List.mem_map_of_mem TeamMember.user hx
        exact hn.1 hmmem
      simp [hrest]
    · rename_i hcond
      rw [List.countP_cons]
      have hm : (m.role == TeamMemberRole.team_leader) = false := by
        by_contra hc
        simp only [Bool.not_eq_false, beq_iff_eq] at hc
        exact hcond (by simp [hF m (List.mem_cons_self m rest) hc])
      rw [if_neg (by simp [hm])]
      have ihr := ih hn.2 (fun x hx hr => hF x (List.mem_cons_of_mem _ hx) hr)
      omega

/-- Retagging the present entry of a user to team_leader in a tag-free list
yields exactly one tagged entry, the one of that user. -/
theorem retag_to_leader (ms : List TeamMember) (nl : UserId)
    (hzero : ms.countP (fun m => m.role == TeamMemberRole.team_leader) = 0)
    (hmem : ms.any (fun m => m.user == nl) = true) :
    (retagFirst ms nl TeamMemberRole.team_leader).countP
      (fun m => m.role == TeamMemberRole.team_leader) = 1 ∧
    ∃ m ∈ retagFirst ms nl TeamMemberRole.team_leader,
      m.user = nl ∧ m.role = TeamMemberRole.team_leader := by
  induction ms with
  | nil => cases hmem
  | cons m rest ih =>
    rw [List.countP_cons] at hzero
    have hzrest : rest.countP (fun m => m.role == TeamMemberRole.team_leader) = 0 := by
      omega
    simp only [retagFirst]
    split
    · rename_i hcond
      constructor
      · rw [List.countP_cons, hzrest]
        simp
      · exact ⟨{ m with role := TeamMemberRole.team_leader },
          List.mem_cons_self _ _, by simpa using hcond, rfl⟩
    · rename_i hcond
      have hmem2 : rest.any (fun m => m.user == nl) = true := by
        rcases List.any_eq_true.mp hmem with ⟨x, hx, hpx⟩
        rcases List.mem_cons.mp hx with hx1 | hx2
        · exact absurd (hx1 ▸ hpx) (by simpa using hcond)
        · exact List.any_eq_true.mpr ⟨x, hx2, hpx⟩
      obtain ⟨ihc, ihp⟩ := ih hzrest hmem2
      constructor
      · rw [List.countP_cons, ihc]
        have hm : (m.role == TeamMemberRole.team_leader) = false := by
          by_contra hc
          simp only [Bool.not_eq_false] at hc
          rw [if_pos hc] at hzero
          omega
        rw [if_neg (by simp [hm])]
      · obtain ⟨x, hx, hxu, hxr⟩ := ihp
        exact ⟨x, List.mem_cons_of_mem _ hx, hxu, hxr⟩

/-- A successful member-resolution length check forces the requested member
ids to be pairwise distinct, given distinct stored user ids. -/
theorem nodup_of_filter_length (dbUsers : List User) (memberIds : List UserId)
    (hn : (dbUsers.map User.id).Nodup)
    (h : (dbUsers.filter (fun u => memberIds.contains u.id && u.isActive)).length =
         memberIds.length) :
    memberIds.Nodup := by
  classical
  have hsub : (dbUsers.filter (fun u => memberIds.contains u.id && u.isActive)).Sublist dbUsers :=
    List.filter_sublist _
  have hnodupf : ((dbUsers.filter (fun u => memberIds.contains u.id && u.isActive)).map
      User.id).Nodup := List.Nodup.sublist (hsub.map User.id) hn
  have hmem : ∀ x ∈ (dbUsers.filter (fun u => memberIds.contains u.id && u.isActive)).map
      User.id, x ∈ memberIds := by
    intro x hx
    obtain ⟨u, hu, hux⟩ := List.mem_map.mp hx
    have h2 := (List.mem_filter.mp hu).2
    rw [Bool.and_eq_true] at h2
    rw [← hux]
    simpa using h2.1
  have hsubset : ((dbUsers.filter (fun u => memberIds.contains u.id && u.isActive)).map
      User.id).toFinset ⊆ memberIds.toFinset := by
    intro x hx
    rw [List.mem_toFinset] at hx ⊢
    exact hmem x hx
  have hc1 : ((dbUsers.filter (fun u => memberIds.contains u.id && u.isActive)).map
      User.id).toFinset.card =
      (dbUsers.filter (fun u => memberIds.contains u.id && u.isActive)).length := by
    rw [List.toFinset_card_of_nodup hnodupf, List.length_map]
  have hc2 : memberIds.toFinset.card ≤ memberIds.length := List.toFinset_card_le _
  have hc3 := Finset.card_le_card hsubset
  rw [hc1, h] at hc3
  have hlen : memberIds.toFinset.card = memberIds.length := le_antisymm hc2 hc3
  rw [List.card_toFinset] at hlen
  have hded : memberIds.dedup = memberIds :=
    List.Sublist.eq_of_length (List.dedup_sublist _) hlen
  rw [← hded]
  exact List.nodup_dedup _

/-- The tag count of the member list built by createTeam is the number of
occurrences of the leader among the requested ids. -/
theorem count_tag_of_map (ids : List UserId) (L : UserId) :
    ((ids.map (builtMember L)).countP
      (fun m => m.role == TeamMemberRole.team_leader)) = ids.count L := by
  induction ids with
  | nil => rfl
  | cons i rest ih =>
    rw [List.map_cons, List.countP_cons, List.count_cons, ih]
    by_cases h : i = L
    · simp [builtMember, h]
    · simp [builtMember, h, (by simpa using h : ¬ (i == L) = true)]

/-- The user ids of the built member list are the requested ids. -/
theorem map_user_builtMember (L : UserId) :
    ∀ ids : List UserId, (ids.map (builtMember L)).map TeamMember.user = ids := by
  intro ids
  induction ids with
  | nil => rfl
  | cons a l ih => simp [builtMember, ih]

/-- The well-formedness predicates depend only on the leader reference and
the member list. -/
theorem teamWF_transfer (t1 t2 : Team) (hm : t2.members = t1.members)
    (hl : t2.teamLeader = t1.teamLeader) (h : teamWF t1) : teamWF t2 := by
  obtain ⟨hn, ⟨e, he, heu, her⟩, hc⟩ := h
  refine ⟨by rw [hm]; exact hn, ⟨e, by rw [hm]; exact he, by rw [hl]; exact heu, her⟩, ?_⟩
  simp only [leaderTagCount] at hc ⊢
  rw [hm]
  exact hc

/-- Saving a well-formed team is the identity. -/
theorem teamSave_of_wf (t : Team) (h : teamWF t) : teamSave t = t := by
  obtain ⟨_, ⟨e, he, heu, _⟩, _⟩ := h
  exact preSave_of_present t ⟨e, he, heu⟩

/-- Appending a plain-member entry for an absent user keeps the team
well-formed. -/
theorem teamWF_append_member (t : Team) (uid : UserId) (h : teamWF t)
    (hnotin : (t.members.any fun m => m.user == uid) = false) :
    teamWF { t with members := t.members ++
      [{ user := uid, role := TeamMemberRole.member }] } := by
  obtain ⟨hn, ⟨e, he, heu, her⟩, hc⟩ := h
  have huid : uid ∉ t.members.map TeamMember.user := by
    intro hmem
    obtain ⟨m, hm, hmu⟩ := List.mem_map.mp hmem
    have h2 : (t.members.any fun m => m.user == uid) = true :=
      List.any_eq_true.mpr ⟨m, hm, by simp [hmu]⟩
    rw [hnotin] at h2
    cases h2
  refine ⟨?_, ⟨e, List.mem_append_left _ he, heu, her⟩, ?_⟩
  · rw [List.map_append]
    refine List.Nodup.append hn (by simp) ?_
    intro a ha hb
    simp only [List.map_cons, List.map_nil, List.mem_singleton] at hb
    subst hb
    exact huid ha
  · simp only [leaderTagCount] at hc ⊢
    rw [List.countP_append, hc]
    simp [List.countP_cons]

/-- Removing a non-leader member entry keeps the team well-formed. -/
theorem teamWF_filter_member (t : Team) (uid : UserId) (h : teamWF t)
    (hne : ¬ t.teamLeader = uid) : teamWF (t.removeMember uid) := by
  obtain ⟨hn, ⟨e, he, heu, her⟩, hc⟩ := h
  have hsub := List.filter_sublist (p := fun m => decide (¬ (m.user == uid) = true)) t.members
  have hemem : e ∈ t.members.filter (fun m => decide (¬ (m.user == uid) = true)) := by
    refine List.mem_filter.mpr ⟨he, ?_⟩
    simp [heu, hne]
  refine ⟨?_, ⟨e, hemem, heu, her⟩, ?_⟩
  · exact List.Nodup.sublist (hsub.map TeamMember.user) hn
  · simp only [leaderTagCount, Team.removeMember] at hc ⊢
    refine le_antisymm (hc ▸ hsub.countP_le _) ?_
    exact List.countP_pos.mpr ⟨e, hemem, by simp [her]⟩

/-- The add-member route with a plain member role preserves well-formedness. -/
theorem addTeamMemberRoute_wf (t : Team) (dbUsers : List User) (uid : UserId)
    (t2 : Team) (h : teamWF t)
    (hok : addTeamMemberRoute t dbUsers uid TeamMemberRole.member = Except.ok t2) :
    teamWF t2 := by
  simp only [addTeamMemberRoute, validAddMemberRole] at hok
  rw [if_neg (by simp)] at hok
  split at hok
  · exact absurd hok (by simp)
  · split at hok
    · exact absurd hok (by simp)
    · split at hok
      · exact absurd hok (by simp)
      · rename_i hnm
        injection hok with h2
        subst h2
        have hanyf : (t.members.any fun m => m.user == uid) = false := by
          rw [Team.isMember] at hnm
          simpa using hnm
        have hwf2 := teamWF_append_member t uid h hanyf
        have haddm : t.addMember uid TeamMemberRole.member =
            { t with members := t.members ++
              [{ user := uid, role := TeamMemberRole.member }] } := by
          simp only [Team.addMember]
          rw [if_neg (by simp [hanyf])]
        rw [haddm, teamSave_of_wf _ hwf2]
        exact hwf2

/-- The remove-member route preserves well-formedness. -/
theorem removeTeamMemberRoute_wf (t : Team) (uid : UserId) (t2 : Team)
    (h : teamWF t) (hok : removeTeamMemberRoute t uid = Except.ok t2) :
    teamWF t2 := by
  simp only [removeTeamMemberRoute] at hok
  split at hok
  · exact absurd hok (by simp)
  · rename_i hlg
    split at hok
    · exact absurd hok (by simp)
    · injection hok with h2
      subst h2
      have hne : ¬ t.teamLeader = uid := by simpa using hlg
      have hwf2 := teamWF_filter_member t uid h hne
      rw [teamSave_of_wf _ hwf2]
      exact hwf2

/-- The team built by createTeam from distinct member ids is well-formed
after its save. -/
theorem createTeam_built_wf (newId : Nat) (nm : String) (leader : UserId)
    (memberIds : List UserId) (hnodupids : memberIds.Nodup) :
    teamWF (teamSave (builtTeam newId nm leader memberIds)) := by
  have hmapuser : (memberIds.map (builtMember leader)).map TeamMember.user =
      memberIds := map_user_builtMember leader memberIds
  have hcount : (memberIds.map (builtMember leader)).countP
      (fun m => m.role == TeamMemberRole.team_leader) = memberIds.count leader :=
    count_tag_of_map memberIds leader
  by_cases hLm : leader ∈ memberIds
  · have hcount1 : memberIds.count leader = 1 :=
      le_antisymm (List.nodup_iff_count_le_one.mp hnodupids leader)
        (List.count_pos_iff.mpr hLm)
    have hwfB : teamWF (builtTeam newId nm leader memberIds) := by
      refine ⟨?_, ⟨builtMember leader leader, ?_, rfl, ?_⟩, ?_⟩
      · show ((memberIds.map (builtMember leader)).map TeamMember.user).Nodup
        rw [hmapuser]
        exact hnodupids
      · exact List.mem_map_of_mem _ hLm
      · simp [builtMember]
      · show (memberIds.map (builtMember leader)).countP
          (fun m => m.role == TeamMemberRole.team_leader) = 1
        rw [hcount, hcount1]
    rw [teamSave_of_wf _ hwfB]
    exact hwfB
  · have hcount0 : memberIds.count leader = 0 := List.count_eq_zero.mpr hLm
    have hanyf : ((memberIds.map (builtMember leader)).any
        (fun m => m.user == leader)) = false := by
      by_contra hc
      simp only [Bool.not_eq_false] at hc
      obtain ⟨m, hm, hmu⟩ := List.any_eq_true.mp hc
      obtain ⟨mid, hmid, hfm⟩ := List.mem_map.mp hm
      rw [← hfm] at hmu
      have hmideq : mid = leader := by simpa [builtMember] using hmu
      exact hLm (hmideq ▸ hmid)
    show teamWF (teamPreSave (builtTeam newId nm leader memberIds))
    simp only [teamPreSave, builtTeam]
    rw [if_neg (by simp [hanyf])]
    refine ⟨?_, ⟨_, List.mem_append.mpr (Or.inr (List.mem_singleton_self _)), rfl, rfl⟩, ?_⟩
    · rw [List.map_append, hmapuser]
      refine List.Nodup.append hnodupids (by simp) ?_
      intro a ha hb
      simp only [List.map_cons, List.map_nil, List.mem_singleton] at hb
      subst hb
      exact hLm ha
    · show ((memberIds.map (builtMember leader)) ++
          [({ user := leader, role := TeamMemberRole.team_leader } : TeamMember)]).countP
          (fun m => m.role == TeamMemberRole.team_leader) = 1
      rw [List.countP_append, hcount, hcount0]
      simp [List.countP_cons]

/-- The create-team route only produces well-formed teams, given distinct
stored user ids. -/
theorem createTeamRoute_wf (dbTeams : List Team) (dbUsers : List User)
    (newId : Nat) (name : String) (leader : UserId) (memberIds : List UserId)
    (t2 : Team) (hn : (dbUsers.map User.id).Nodup)
    (hok : createTeamRoute dbTeams dbUsers newId name leader memberIds =
      Except.ok t2) : teamWF t2 := by
  simp only [createTeamRoute] at hok
  split at hok
  · exact absurd hok (by simp)
  · split at hok
    · exact absurd hok (by simp)
    · split at hok
      · exact absurd hok (by simp)
      · split at hok
        · exact absurd hok (by simp)
        · rename_i hguard
          injection hok with h2
          subst h2
          have hnodupids : memberIds.Nodup := by
            by_cases hids : memberIds = []
            · subst hids
              exact List.nodup_nil
            · have hpos : 0 < memberIds.length := List.length_pos.mpr hids
              have heq : (dbUsers.filter
                  (fun u => memberIds.contains u.id && u.isActive)).length =
                  memberIds.length := by
                by_contra hne2
                exact hguard ⟨hpos, hne2⟩
              exact nodup_of_filter_length dbUsers memberIds hn heq
          exact createTeam_built_wf newId (trimStr name) leader memberIds hnodupids

/-- The leader-reassignment mutation preserves well-formedness. -/
theorem teamWF_reassign (t : Team) (nl : UserId) (h : teamWF t) :
    teamWF { t with teamLeader := nl, members := reassignMembers t nl } := by
  obtain ⟨hn, hinv⟩ := h
  have hF := tagged_is_leader t hinv
  have hms1map := retagFirst_map_user t.members t.teamLeader TeamMemberRole.member
  have hms1nodup : ((retagFirst t.members t.teamLeader TeamMemberRole.member).map
      TeamMember.user).Nodup := by rw [hms1map]; exact hn
  have hms1count := retag_to_member_count t.members t.teamLeader hn hF
  simp only [reassignMembers]
  split
  · rename_i hany
    obtain ⟨hc1, x, hx, hxu, hxr⟩ :=
      retag_to_leader (retagFirst t.members t.teamLeader TeamMemberRole.member)
        nl hms1count hany
    refine ⟨?_, ⟨x, hx, hxu, hxr⟩, hc1⟩
    rw [retagFirst_map_user]
    exact hms1nodup
  · rename_i hany
    have hanyf : ((retagFirst t.members t.teamLeader TeamMemberRole.member).any
        (fun m => m.user == nl)) = false := by simpa using hany
    refine ⟨?_, ⟨_, List.mem_append.mpr (Or.inr (List.mem_singleton_self _)), rfl, rfl⟩, ?_⟩
    · rw [List.map_append, hms1map]
      refine List.Nodup.append hn (by simp) ?_
      intro a ha hb
      simp only [List.map_cons, List.map_nil, List.mem_singleton] at hb
      subst hb
      rw [← hms1map] at ha
      obtain ⟨m, hm, hmu⟩ := List.mem_map.mp ha
      have h2 : ((retagFirst t.members t.teamLeader TeamMemberRole.member).any
          (fun m => m.user == a)) = true :=
        List.any_eq_true.mpr ⟨m, hm, by simp [hmu]⟩
      rw [hanyf] at h2
      cases h2
    · show ((retagFirst t.members t.teamLeader TeamMemberRole.member) ++
          [({ user := nl, role := TeamMemberRole.team_leader } : TeamMember)]).countP
          (fun m => m.role == TeamMemberRole.team_leader) = 1
      rw [List.countP_append, hms1count]
      simp [List.countP_cons]

/-- The update-team route preserves well-formedness. -/
theorem updateTeamRoute_wf (dbTeams : List Team) (dbUsers : List User)
    (t : Team) (upd : TeamUpdate) (t2 : Team) (h : teamWF t)
    (hok : updateTeamRoute dbTeams dbUsers t upd = Except.ok t2) : teamWF t2 := by
  simp only [updateTeamRoute] at hok
  split at hok
  · exact absurd hok (by simp)
  · split at hok
    · rename_i nl hnl
      split at hok
      · injection hok with h2
        subst h2
        have hwfF := teamWF_transfer t (finishTeamUpdate t upd) rfl rfl h
        rw [teamSave_of_wf _ hwfF]
        exact hwfF
      · split at hok
        · exact absurd hok (by simp)
        · split at hok
          · exact absurd hok (by simp)
          · injection hok with h2
            subst h2
            have hwfR := teamWF_reassign t nl h
            have hwfF := teamWF_transfer _
              (finishTeamUpdate { t with teamLeader := nl, members := reassignMembers t nl } upd)
              rfl rfl hwfR
            show teamWF (teamSave
              (finishTeamUpdate { t with teamLeader := nl, members := reassignMembers t nl } upd))
            rw [teamSave_of_wf _ hwfF]
            exact hwfF
    · injection hok with h2
      subst h2
      have hwfF := teamWF_transfer t (finishTeamUpdate t upd) rfl rfl h
      rw [teamSave_of_wf _ hwfF]
      exact hwfF

/-- Counterexample to C1 as stated: the Eng team satisfies the leader
invariant, yet the add-member route accepts the caller-supplied role
team_leader for Bob and the save commits a team whose member set carries two
team_leader tags, so the exactly-one part of the invariant is violated after
an addMember operation. -/
theorem leader_tag_counterexample :
    leaderInvariant engTeam ∧
    addTeamMemberRoute engTeam sampleUsers 2 TeamMemberRole.team_leader =
      Except.ok engTeamTwoLeaders ∧
    leaderTagCount engTeamTwoLeaders = 2 ∧
    ¬ leaderInvariant engTeamTwoLeaders := by
  refine ⟨by decide, rfl, by decide, by decide⟩

/-- C1 amended: across createTeam, updateTeam (leader reassignment
included), removeMember, every save, and addMember restricted to role
member, teams stay well-formed: member entries carry pairwise distinct user
ids, the designated leader appears tagged team_leader, and exactly one entry
carries that tag; a save of a well-formed team rewrites nothing, and
well-formedness subsumes the leader invariant of the claim.  The restriction
on addMember is forced by the counterexample: the route forwards the
caller-supplied role, and role team_leader breaks the exactly-one part. -/
theorem team_leader_invariant_amended :
    (∀ (dbTeams : List Team) (dbUsers : List User) (newId : Nat)
       (name : String) (leader : UserId) (memberIds : List UserId) (t2 : Team),
       (dbUsers.map User.id).Nodup →
       createTeamRoute dbTeams dbUsers newId name leader memberIds = Except.ok t2 →
       teamWF t2) ∧
    (∀ (dbTeams : List Team) (dbUsers : List User) (t : Team)
       (upd : TeamUpdate) (t2 : Team), teamWF t →
       updateTeamRoute dbTeams dbUsers t upd = Except.ok t2 → teamWF t2) ∧
    (∀ (t : Team) (dbUsers : List User) (uid : UserId) (t2 : Team), teamWF t →
       addTeamMemberRoute t dbUsers uid TeamMemberRole.member = Except.ok t2 →
       teamWF t2) ∧
    (∀ (t : Team) (uid : UserId) (t2 : Team), teamWF t →
       removeTeamMemberRoute t uid = Except.ok t2 → teamWF t2) ∧
    (∀ t : Team, teamWF t → teamSave t = t) ∧
    (∀ t : Team, teamWF t → leaderInvariant t) := by
  refine ⟨?_, ?_, ?_, ?_, ?_, ?_⟩
  · intro dbTeams dbUsers newId name leader memberIds t2 hn hok
    exact createTeamRoute_wf dbTeams dbUsers newId name leader memberIds t2 hn hok
  · intro dbTeams dbUsers t upd t2 h hok
    exact updateTeamRoute_wf dbTeams dbUsers t upd t2 h hok
  · intro t dbUsers uid t2 h hok
    exact addTeamMemberRoute_wf t dbUsers uid t2 h hok
  · intro t uid t2 h hok
    exact removeTeamMemberRoute_wf t uid t2 h hok
  · intro t h
    exact teamSave_of_wf t h
  · intro t h
    exact h.2

/-- Witness for the amended C1: creating the Eng team with Carol and Bob
yields a well-formed team; reassigning its leadership to Alice stays
well-formed; removing Bob stays well-formed; and the save of the
well-formed Eng team rewrites nothing. -/
theorem team_leader_invariant_amended_witness :
    teamWF engTeamFull ∧ teamWF reassignedTeam ∧ teamWF engTeam ∧
    teamSave engTeam = engTeam := by
  refine ⟨?_, ?_, ?_, ?_⟩
  · exact team_leader_invariant_amended.1 [] sampleUsers 10 "Eng" 3 [3, 2]
      engTeamFull (by decide) rfl
  · exact team_leader_invariant_amended.2.1 [] sampleUsers engTeamFull
      { name := none, teamLeader := some 1, isActive := none } reassignedTeam
      (by decide) rfl
  · exact team_leader_invariant_amended.2.2.2.1 engTeamFull 2 engTeam
      (by decide) rfl
  · exact team_leader_invariant_amended.2.2.2.2.1 engTeam (by decide)

end DailyMonitoring
